import Mathlib

/-!
Shallow embedding of `app.py` (AI career assistant).  Python strings are
modelled as `List Char`, Python dicts as association lists, and the external
services (the text-generation endpoint, the PDF and DOCX renderers) as
explicit function parameters.  Fallible Python code (raised exceptions) is
modelled with `Option`.
-/

namespace CareerApp

/-- Model of `str.startswith`: `listStartsWith p s` is true when `p` is an
initial segment of `s`. -/
def listStartsWith : List Char → List Char → Bool
  | [], _ => true
  | _ :: _, [] => false
  | c :: cs, d :: ds => c = d && listStartsWith cs ds

/-- Drop characters until the first opening brace; the result is either empty
or starts with the first opening brace of the input. -/
def dropUntilBrace : List Char → List Char
  | [] => []
  | c :: cs => if c = '{' then c :: cs else dropUntilBrace cs

/-- Keep characters up to and including the last occurrence of `t`; `none` if
`t` does not occur. -/
def upToLast (t : Char) : List Char → Option (List Char)
  | [] => none
  | c :: cs =>
    match upToLast t cs with
    | some r => some (c :: r)
    | none => if c = t then some [c] else none

/-- Keep characters up to and including the first occurrence of `t`; `none` if
`t` does not occur. -/
def upToFirst (t : Char) : List Char → Option (List Char)
  | [] => none
  | c :: cs => if c = t then some [c] else (upToFirst t cs).map (c :: ·)

/-- Model of `re.search(r'\x7b.*\x7d', response, re.DOTALL)` in
`linkedin_import` (`app.py` line 81): the greedy match runs from the first
opening brace of the response to the last closing brace (provided that
closing brace is after the opening one); `none` when the regex does not
match. -/
def extractBraces (s : List Char) : Option (List Char) :=
  match dropUntilBrace s with
  | [] => none
  | c :: rest => (upToLast '}' rest).map (c :: ·)

/-- Modelled from the spec: the "first brace-delimited substring" of the
response, i.e. the substring running from the first opening brace to the
first closing brace after it — the earliest complete brace-delimited
substring, which is what a lazy scan would return. -/
def firstBraceDelimited (s : List Char) : Option (List Char) :=
  match dropUntilBrace s with
  | c :: rest => (upToFirst '}' rest).map (c :: ·)
  | [] => none

theorem dropUntilBrace_append_cons (a : List Char) (rest : List Char)
    (ha : '{' ∉ a) : dropUntilBrace (a ++ '{' :: rest) = '{' :: rest := by
  induction a with
  | nil => simp [dropUntilBrace]
  | cons c cs ih =>
    have hc : c ≠ '{' := by
      intro h; exact ha (by simp [h])
    simp only [List.cons_append, dropUntilBrace, if_neg hc]
    exact ih (fun h => ha (List.mem_cons_of_mem _ h))

theorem upToLast_eq_none (t : Char) (b : List Char) (hb : t ∉ b) :
    upToLast t b = none := by
  induction b with
  | nil => rfl
  | cons c cs ih =>
    have hc : c ≠ t := by
      intro h; exact hb (by simp [h])
    have : upToLast t cs = none := ih (fun h => hb (List.mem_cons_of_mem _ h))
    simp [upToLast, this, hc]

theorem upToLast_append_last (t : Char) (m b : List Char) (hb : t ∉ b) :
    upToLast t (m ++ t :: b) = some (m ++ [t]) := by
  induction m with
  | nil =>
    simp [upToLast, upToLast_eq_none t b hb]
  | cons c cs ih =>
    simp [upToLast, ih]

/-- Characterisation of the greedy extraction: for a response consisting of a
brace-free preamble `a`, an opening brace, an arbitrary middle `m`, a closing
brace, and a close-brace-free tail `b`, the extracted substring runs from
that first opening brace to that last closing brace. -/
theorem extractBraces_eq (a m b : List Char) (ha : '{' ∉ a) (hb : '}' ∉ b) :
    extractBraces (a ++ '{' :: (m ++ ['}']) ++ b) = some ('{' :: (m ++ ['}'])) := by
  have h1 : dropUntilBrace (a ++ '{' :: (m ++ ['}'] ++ b)) = '{' :: (m ++ ['}'] ++ b) :=
    dropUntilBrace_append_cons a _ ha
  have h2 : upToLast '}' (m ++ '}' :: b) = some (m ++ ['}']) :=
    upToLast_append_last '}' m b hb
  simp only [extractBraces, List.append_assoc, List.cons_append, List.nil_append] at *
  rw [h1]
  show (upToLast '}' (m ++ '}' :: b)).map ('{' :: ·) = some ('{' :: (m ++ ['}']))
  rw [h2]
  simp

/-- JSON values as produced by `json.loads`.  Numbers keep their source
lexeme: the program never inspects numeric values. -/
inductive Json where
  | null : Json
  | bool : Bool → Json
  | num : List Char → Json
  | str : List Char → Json
  | arr : List Json → Json
  | obj : List (List Char × Json) → Json

/-- Whitespace characters skipped by the JSON parser. -/
def isWsChar (c : Char) : Bool :=
  c = ' ' || c = '\t' || c = '\n' || c = '\r'

/-- Skip leading JSON whitespace. -/
def skipWs : List Char → List Char
  | [] => []
  | c :: cs => if isWsChar c then skipWs cs else c :: cs

def isDigitChar (c : Char) : Bool := '0' ≤ c && c ≤ '9'

/-- Decode a JSON string escape character (the model rejects the rare
`\u` escapes, which the program's prompts never produce). -/
def unescape (c : Char) : Option Char :=
  if c = '"' then some '"'
  else if c = '\\' then some '\\'
  else if c = '/' then some '/'
  else if c = 'b' then some (Char.ofNat 8)
  else if c = 'f' then some (Char.ofNat 12)
  else if c = 'n' then some '\n'
  else if c = 'r' then some '\r'
  else if c = 't' then some '\t'
  else none

/-- Parse the body of a JSON string after the opening quote, returning the
decoded content and the remainder after the closing quote.  Raw control
characters are rejected, as by `json.loads` in its default strict mode. -/
def parseStringBody : List Char → Option (List Char × List Char)
  | [] => none
  | c :: cs =>
    if c = '"' then some ([], cs)
    else if c = '\\' then
      match cs with
      | [] => none
      | e :: cs2 =>
        match unescape e with
        | none => none
        | some ch => (parseStringBody cs2).map (fun p => (ch :: p.1, p.2))
    else if c.toNat < 32 then none
    else (parseStringBody cs).map (fun p => (c :: p.1, p.2))

/-- Take a maximal run of decimal digits. -/
def takeDigits : List Char → List Char × List Char
  | [] => ([], [])
  | c :: cs =>
    if isDigitChar c then
      let p := takeDigits cs
      (c :: p.1, p.2)
    else ([], c :: cs)

/-- Integer part of a JSON number: `0`, or a nonzero digit followed by more
digits. -/
def parseIntPart : List Char → Option (List Char × List Char)
  | [] => none
  | c :: cs =>
    if c = '0' then some ([c], cs)
    else if isDigitChar c then
      let p := takeDigits cs
      some (c :: p.1, p.2)
    else none

/-- Optional fractional part of a JSON number. -/
def parseFracPart : List Char → Option (List Char × List Char)
  | [] => some ([], [])
  | c :: cs =>
    if c = '.' then
      match takeDigits cs with
      | ([], _) => none
      | (ds, rest) => some ('.' :: ds, rest)
    else some ([], c :: cs)

/-- Optional exponent part of a JSON number. -/
def parseExpPart : List Char → Option (List Char × List Char)
  | [] => some ([], [])
  | c :: cs =>
    if c = 'e' || c = 'E' then
      let sp : List Char × List Char :=
        match cs with
        | [] => ([], [])
        | d :: ds => if d = '+' || d = '-' then ([d], ds) else ([], d :: ds)
      match takeDigits sp.2 with
      | ([], _) => none
      | (ds, r2) => some (c :: (sp.1 ++ ds), r2)
    else some ([], c :: cs)

/-- Parse a JSON number lexeme (optional sign, integer part, optional
fraction and exponent). -/
def parseNumber (s : List Char) : Option (List Char × List Char) :=
  let sp : List Char × List Char :=
    match s with
    | [] => ([], [])
    | c :: cs => if c = '-' then (['-'], cs) else ([], c :: cs)
  match parseIntPart sp.2 with
  | none => none
  | some (ip, r1) =>
    match parseFracPart r1 with
    | none => none
    | some (fp, r2) =>
      match parseExpPart r2 with
      | none => none
      | some (ep, r3) => some (sp.1 ++ ip ++ fp ++ ep, r3)

/-- Insert-or-replace on an association list, keeping the position of an
existing key, as a Python dict does for a duplicate JSON key. -/
def upsertField (fields : List (List Char × Json)) (k : List Char) (v : Json) :
    List (List Char × Json) :=
  match fields with
  | [] => [(k, v)]
  | (k0, v0) :: rest =>
    if k0 = k then (k0, v) :: rest else (k0, v0) :: upsertField rest k v

mutual

/-- Parse one JSON value, fuel-bounded.  Returns the value and the unconsumed
remainder. -/
def parseJsonVal : Nat → List Char → Option (Json × List Char)
  | 0, _ => none
  | Nat.succ fuel, s =>
    match skipWs s with
    | [] => none
    | c :: cs =>
      if c = 'n' then
        if listStartsWith ("ull").data cs then some (.null, cs.drop 3) else none
      else if c = 't' then
        if listStartsWith ("rue").data cs then some (.bool true, cs.drop 3) else none
      else if c = 'f' then
        if listStartsWith ("alse").data cs then some (.bool false, cs.drop 4) else none
      else if c = '"' then
        (parseStringBody cs).map (fun p => (.str p.1, p.2))
      else if c = '[' then
        match skipWs cs with
        | [] => none
        | d :: ds => if d = ']' then some (.arr [], ds) else parseArrayItems fuel [] (d :: ds)
      else if c = '{' then
        match skipWs cs with
        | [] => none
        | d :: ds => if d = '}' then some (.obj [], ds) else parseObjMembers fuel [] (d :: ds)
      else if c = '-' || isDigitChar c then
        (parseNumber (c :: cs)).map (fun p => (.num p.1, p.2))
      else none

/-- Parse the items of a JSON array after the opening bracket. -/
def parseArrayItems : Nat → List Json → List Char → Option (Json × List Char)
  | 0, _, _ => none
  | Nat.succ fuel, acc, s =>
    match parseJsonVal fuel s with
    | none => none
    | some (v, r) =>
      match skipWs r with
      | [] => none
      | c :: cs =>
        if c = ',' then parseArrayItems fuel (acc ++ [v]) cs
        else if c = ']' then some (.arr (acc ++ [v]), cs)
        else none

/-- Parse the members of a JSON object after the opening brace. -/
def parseObjMembers : Nat → List (List Char × Json) → List Char →
    Option (Json × List Char)
  | 0, _, _ => none
  | Nat.succ fuel, acc, s =>
    match skipWs s with
    | [] => none
    | c :: cs =>
      if c = '"' then
        match parseStringBody cs with
        | none => none
        | some (key, r1) =>
          match skipWs r1 with
          | [] => none
          | d :: ds =>
            if d = ':' then
              match parseJsonVal fuel ds with
              | none => none
              | some (v, r2) =>
                match skipWs r2 with
                | [] => none
                | e :: es =>
                  if e = ',' then parseObjMembers fuel (upsertField acc key v) es
                  else if e = '}' then some (.obj (upsertField acc key v), es)
                  else none
            else none
      else none

end

/-- Model of `json.loads`: parse a single JSON document and reject trailing
content other than whitespace. -/
def jsonParse (s : List Char) : Option Json :=
  match parseJsonVal (2 * s.length + 2) s with
  | none => none
  | some (v, rest) => if skipWs rest = [] then some v else none

/-- Required URL start checked by `linkedin_import` (`app.py` line 58). -/
def linkedinUrlStart : List Char := ("https://www.linkedin.com/in/").data

/-- The four required keys checked by `linkedin_import` (`app.py` line 88). -/
def requiredFields : List (List Char) :=
  [("name").data, ("experience").data, ("education").data, ("skills").data]

/-- Model of `field in parsed_data` for a dict. -/
def containsKey (fields : List (List Char × Json)) (k : List Char) : Bool :=
  fields.any (fun p => p.1 = k)

/-- Model of `linkedin_import` (`app.py` lines 54-96).  The generation
endpoint's response is passed explicitly.  Every raised exception is caught
by the function's own handler, which reports the error and returns the empty
dict; the model therefore returns the empty association list on every
failure path.  The extracted substring starts with an opening brace, so a
successful `json.loads` yields a dict; the remaining constructor cases are
unreachable and also map to the empty dict. -/
def linkedin_import (url response : List Char) : List (List Char × Json) :=
  if listStartsWith linkedinUrlStart url then
    match extractBraces response with
    | none => []
    | some jsonStr =>
      match jsonParse jsonStr with
      | some (Json.obj fields) =>
        if requiredFields.all (fun k => containsKey fields k) then fields else []
      | some _ => []
      | none => []
  else []

/-- C1, claim as stated, refuted: on the response `{"a": 1} {"b": 2}` the
substring handed to the JSON parser is the greedy match `{"a": 1} {"b": 2}`,
not the first brace-delimited substring `{"a": 1}`. -/
theorem extract_not_first_delimited :
    extractBraces ("\x7b\"a\": 1\x7d \x7b\"b\": 2\x7d").data
        = some ("\x7b\"a\": 1\x7d \x7b\"b\": 2\x7d").data ∧
      firstBraceDelimited ("\x7b\"a\": 1\x7d \x7b\"b\": 2\x7d").data
        = some ("\x7b\"a\": 1\x7d").data ∧
      some ("\x7b\"a\": 1\x7d \x7b\"b\": 2\x7d").data
        ≠ some (("\x7b\"a\": 1\x7d").data) := by
  refine ⟨by decide, by decide, by decide⟩

/-- C1, amended: the substring handed to the JSON parser by
`linkedin_import` is the greedy regular-expression match, running from the
first opening brace of the response to the last closing brace — the longest
brace-delimited substring starting at the first opening brace, not the first
(shortest) brace-delimited substring. -/
theorem extract_is_greedy_match (a m b : List Char)
    (ha : '{' ∉ a) (hb : '}' ∉ b) :
    extractBraces (a ++ '{' :: (m ++ ['}']) ++ b) = some ('{' :: (m ++ ['}'])) :=
  extractBraces_eq a m b ha hb

/-- Witness for the amended C1 theorem at a concrete response. -/
theorem extract_is_greedy_match_witness :
    '{' ∉ ("text ").data ∧ '}' ∉ (" tail").data ∧
      extractBraces (("text ").data ++ '{' :: ((("\"a\": 1\x7d \x7b\"b\": 2").data) ++ ['}']) ++ (" tail").data)
        = some ('{' :: (("\"a\": 1\x7d \x7b\"b\": 2").data ++ ['}'])) :=
  ⟨by decide, by decide,
    extract_is_greedy_match ("text ").data ("\"a\": 1\x7d \x7b\"b\": 2").data (" tail").data
      (by decide) (by decide)⟩

/-- Inner text of the example JSON object used by concrete test inputs. -/
def exMid : List Char :=
  ("\"name\": \"A\", \"experience\": [\"E\"], \"education\": [\"D\"], \"skills\": [\"S\"]").data

/-- Fields of the example JSON object, in parse order. -/
def exFields : List (List Char × Json) :=
  [(("name").data, Json.str ("A").data),
   (("experience").data, Json.arr [Json.str ("E").data]),
   (("education").data, Json.arr [Json.str ("D").data]),
   (("skills").data, Json.arr [Json.str ("S").data])]

/-- A URL passing the required-start check. -/
def goodUrl : List Char := ("https://www.linkedin.com/in/jane").data

/-- C2, claim as stated, refuted: a response consisting of a single
well-formed JSON object with all four required keys followed by one stray
closing brace makes the greedy match span the stray brace, `json.loads`
fails on the trailing content, and `linkedin_import` returns the empty dict
instead of the object's fields. -/
theorem linkedin_import_stray_brace :
    jsonParse ('{' :: (exMid ++ ['}'])) = some (Json.obj exFields) ∧
      requiredFields.all (fun k => containsKey exFields k) = true ∧
      exFields.length = 4 ∧
      linkedin_import goodUrl (('{' :: (exMid ++ ['}'])) ++ (" \x7d").data) = [] := by
  refine ⟨by rfl, by decide, by rfl, by rfl⟩

/-- C2, amended: if the generation response consists of a single well-formed
JSON object with all four required keys and the response contains no brace
characters outside that object, then `linkedin_import` (given a URL with the
required start) returns exactly that object's fields, verbatim. -/
theorem linkedin_import_verbatim (url pre mid post : List Char)
    (fields : List (List Char × Json))
    (hu : listStartsWith linkedinUrlStart url = true)
    (hpre : '{' ∉ pre) (hpost : '}' ∉ post)
    (hparse : jsonParse ('{' :: (mid ++ ['}'])) = some (Json.obj fields))
    (hkeys : requiredFields.all (fun k => containsKey fields k) = true) :
    linkedin_import url (pre ++ '{' :: (mid ++ ['}']) ++ post) = fields := by
  have h1 := extractBraces_eq pre mid post hpre hpost
  simp only [List.append_assoc, List.cons_append, List.nil_append] at h1
  simp [linkedin_import, hu, h1, hparse, hkeys]

/-- Witness for the amended C2 theorem at a concrete response. -/
theorem linkedin_import_verbatim_witness :
    linkedin_import goodUrl
        (("Sure: ").data ++ '{' :: (exMid ++ ['}']) ++ (" Bye.").data) = exFields :=
  linkedin_import_verbatim goodUrl ("Sure: ").data exMid (" Bye.").data exFields
    (by decide) (by decide) (by decide) (by rfl) (by decide)

/-- C3: a URL that does not start with `https://www.linkedin.com/in/` makes
`linkedin_import` return the empty dict, whatever the generation endpoint
would answer; the `ValueError` it raises internally is caught by its own
handler, so no error escapes. -/
theorem linkedin_import_bad_url (url response : List Char)
    (h : listStartsWith linkedinUrlStart url = false) :
    linkedin_import url response = [] := by
  unfold linkedin_import
  rw [h]
  simp

/-- Witness for C3 at a concrete URL. -/
theorem linkedin_import_bad_url_witness :
    linkedin_import ("http://example.com/in/jane").data
      ('{' :: (exMid ++ ['}'])) = [] :=
  linkedin_import_bad_url ("http://example.com/in/jane").data
    ('{' :: (exMid ++ ['}'])) (by decide)

/-- C4: whenever the substring extracted from the response parses to a JSON
object missing at least one of the four required keys, `linkedin_import`
returns the empty dict, for every URL. -/
theorem linkedin_import_missing_key (url response s : List Char)
    (fields : List (List Char × Json))
    (hex : extractBraces response = some s)
    (hparse : jsonParse s = some (Json.obj fields))
    (hkeys : requiredFields.all (fun k => containsKey fields k) = false) :
    linkedin_import url response = [] := by
  by_cases hu : listStartsWith linkedinUrlStart url = true
  · simp [linkedin_import, hu, hex, hparse, hkeys]
  · simp [linkedin_import, hu]

/-- Witness for C4 at a concrete response missing three required keys. -/
theorem linkedin_import_missing_key_witness :
    linkedin_import goodUrl ("\x7b\"name\": \"A\"\x7d").data = [] :=
  linkedin_import_missing_key goodUrl ("\x7b\"name\": \"A\"\x7d").data
    ("\x7b\"name\": \"A\"\x7d").data [(("name").data, Json.str ("A").data)]
    (by decide) (by rfl) (by decide)

/-- Join a list of strings with a separator, as Python `sep.join`. -/
def intercalateChars (sep : List Char) : List (List Char) → List Char
  | [] => []
  | [x] => x
  | x :: rest => x ++ sep ++ intercalateChars sep rest

/-- Extract a list of strings from a list of JSON values; `none` when some
element is not a string (Python `str.join` raises `TypeError` there). -/
def strListOf : List Json → Option (List (List Char))
  | [] => some []
  | Json.str s :: rest => (strListOf rest).map (s :: ·)
  | _ :: _ => none

/-- Model of Python `sep.join(v)` on a JSON value `v`: joins a list of
strings; iterating a string yields its characters and iterating a dict
yields its keys, so those also join; any other value raises `TypeError`,
modelled as `none`. -/
def pyJoin (sep : List Char) : Json → Option (List Char)
  | Json.arr elems => (strListOf elems).map (intercalateChars sep)
  | Json.str s => some (intercalateChars sep (s.map (fun c => [c])))
  | Json.obj fields => some (intercalateChars sep (fields.map (fun p => p.1)))
  | _ => none

/-- Model of `dict.get(k, dflt)`. -/
def dictGet (fields : List (List Char × Json)) (k : List Char) (dflt : Json) : Json :=
  match fields with
  | [] => dflt
  | (k0, v) :: rest => if k0 = k then v else dictGet rest k dflt

/-- Model of `dict.update`: upsert every pair of `upd` into `base`. -/
def dictUpdate (base upd : List (List Char × Json)) : List (List Char × Json) :=
  upd.foldl (fun b p => upsertField b p.1 p.2) base

/-- The dict literal built by the Import Profile callback (`app.py` lines
199-204): `name` is taken as-is, `experience` and `education` are joined
with a newline, `skills` with a comma and space.  `none` models a
`TypeError` raised by one of the joins. -/
def flattenImported (d : List (List Char × Json)) :
    Option (List (List Char × Json)) :=
  match pyJoin ['\n'] (dictGet d ("experience").data (Json.arr [])) with
  | none => none
  | some expStr =>
    match pyJoin ['\n'] (dictGet d ("education").data (Json.arr [])) with
    | none => none
    | some eduStr =>
      match pyJoin (", ").data (dictGet d ("skills").data (Json.arr [])) with
      | none => none
      | some skillsStr =>
        some [(("name").data, dictGet d ("name").data (Json.str [])),
              (("experience").data, Json.str expStr),
              (("education").data, Json.str eduStr),
              (("skills").data, Json.str skillsStr)]

/-- The success message shown by the Import Profile callback. -/
def successMsg : List Char := ("Profile imported successfully!").data

/-- The error message shown by the callback's exception handler. -/
def importFailMsg : List Char := ("Failed to process LinkedIn profile").data

/-- Model of the Import Profile callback in `main` (`app.py` lines
194-207).  The session state is the `resume_data` dict; the result pairs the
new state with the list of messages shown.  An empty URL skips the body;
otherwise `linkedin_import` runs, a non-empty result is flattened and merged
into the state, and the success message is shown — unless building the
update dict raises, in which case the handler shows the error message and
the success line is never reached. -/
def import_profile_click (state : List (List Char × Json))
    (url response : List Char) :
    List (List Char × Json) × List (List Char) :=
  if url = [] then (state, [])
  else
    let d := linkedin_import url response
    if d.isEmpty then (state, [successMsg])
    else
      match flattenImported d with
      | some upd => (dictUpdate state upd, [successMsg])
      | none => (state, [importFailMsg])

/-- C8: whenever `linkedin_import` fails and returns the empty dict, the
Import Profile callback leaves the session resume data unchanged. -/
theorem import_click_atomic (state : List (List Char × Json))
    (url response : List Char)
    (h : linkedin_import url response = []) :
    (import_profile_click state url response).1 = state := by
  by_cases hu : url = []
  · simp [import_profile_click, hu]
  · simp [import_profile_click, hu, h]

/-- Witness for C8 at a concrete failing import. -/
theorem import_click_atomic_witness :
    (import_profile_click [(("name").data, Json.str ("X").data)]
        ("http://example.com/in/jane").data ('{' :: (exMid ++ ['}']))).1
      = [(("name").data, Json.str ("X").data)] :=
  import_click_atomic [(("name").data, Json.str ("X").data)]
    ("http://example.com/in/jane").data ('{' :: (exMid ++ ['}'])) (by rfl)

/-- A response whose JSON object has all four required keys but a numeric
`experience` value. -/
def exNumResponse : List Char :=
  ("\x7b\"name\": \"A\", \"experience\": 5, \"education\": [], \"skills\": []\x7d").data

/-- C10, claim as stated, refuted: on a response whose imported dict has a
numeric `experience` value, `linkedin_import` returns a non-empty dict
without raising, but `\n.join` raises while the update dict is built, the
exception handler runs, and the success message is not emitted. -/
theorem import_click_no_success :
    (linkedin_import goodUrl exNumResponse).length = 4 ∧
      successMsg ∉ (import_profile_click [] goodUrl exNumResponse).2 := by
  refine ⟨by rfl, by decide⟩

/-- C10, amended: for every non-empty URL, the success message is emitted
whenever `linkedin_import` returns and either its result is the empty dict
(so the update is skipped) or building the session-state update raises no
error; in particular the success message is always emitted when the import
fails with an empty result. -/
theorem import_click_success (state : List (List Char × Json))
    (url response : List Char) (hu : url ≠ [])
    (h : linkedin_import url response = [] ∨
      ∃ upd, flattenImported (linkedin_import url response) = some upd) :
    successMsg ∈ (import_profile_click state url response).2 := by
  rcases h with h | ⟨upd, h⟩
  · simp [import_profile_click, hu, h]
  · by_cases hd : linkedin_import url response = []
    · simp [import_profile_click, hu, hd]
    · simp [import_profile_click, hu, hd, h]

/-- Witness for the amended C10 theorem: a non-empty URL failing the
required-start check yields an empty import result, and the success message
is still shown. -/
theorem import_click_success_witness :
    successMsg ∈ (import_profile_click [] ("x").data ('{' :: (exMid ++ ['}']))).2 :=
  import_click_success [] ("x").data ('{' :: (exMid ++ ['}'])) (by decide)
    (Or.inl (by rfl))

/-- Lookup in the template context, first match wins; prepending therefore
models the override in `\x7b**context, "language": language\x7d`. -/
def lookupCtx (ctx : List (List Char × List Char)) (k : List Char) :
    Option (List Char) :=
  match ctx with
  | [] => none
  | (k0, v) :: rest => if k0 = k then some v else lookupCtx rest k

mutual

/-- Model of f-string template substitution as performed by
`ChatPromptTemplate.from_template(...).invoke(context)`: a doubled brace is
an escaped literal brace, an opening brace starts a placeholder to be looked
up in the context, and a lone closing brace is an error.  A missing context
key or a malformed template yields `none`, modelling the raised exception.
The model covers plain `\x7bname\x7d` placeholders, the only form the
program's templates use; conversion and format-spec suffixes are rejected. -/
def fmtSubst (ctx : List (List Char × List Char)) : List Char → Option (List Char)
  | [] => some []
  | c :: rest =>
    if c = '{' then
      match rest with
      | [] => none
      | c2 :: rest2 =>
        if c2 = '{' then (fmtSubst ctx rest2).map ('{' :: ·)
        else fmtName ctx [] (c2 :: rest2)
    else if c = '}' then
      match rest with
      | [] => none
      | c2 :: rest2 =>
        if c2 = '}' then (fmtSubst ctx rest2).map ('}' :: ·)
        else none
    else (fmtSubst ctx rest).map (c :: ·)
termination_by l => l.length

/-- Scan a placeholder name up to its closing brace, then substitute its
context value and continue with `fmtSubst`. -/
def fmtName (ctx : List (List Char × List Char)) (acc : List Char) :
    List Char → Option (List Char)
  | [] => none
  | c :: rest =>
    if c = '}' then
      match lookupCtx ctx acc with
      | some v => (fmtSubst ctx rest).map (v ++ ·)
      | none => none
    else if c = '{' || c = ':' || c = '!' then none
    else fmtName ctx (acc ++ [c]) rest
termination_by l => l.length

end

/-- Substituting a brace-free template is the identity. -/
theorem fmtSubst_brace_free (ctx : List (List Char × List Char)) :
    ∀ d : List Char, '{' ∉ d → '}' ∉ d → fmtSubst ctx d = some d := by
  intro d
  induction d with
  | nil => intro _ _; rw [fmtSubst.eq_def]
  | cons c cs ih =>
    intro h1 h2
    have hc1 : c ≠ '{' := fun h => h1 (by simp [h])
    have hc2 : c ≠ '}' := fun h => h2 (by simp [h])
    have := ih (fun h => h1 (List.mem_cons_of_mem _ h))
      (fun h => h2 (List.mem_cons_of_mem _ h))
    rw [fmtSubst.eq_def]
    simp [hc1, hc2, this]

/-- A name scan that never meets a closing brace fails. -/
theorem fmtName_no_close (ctx : List (List Char × List Char)) :
    ∀ d acc, '}' ∉ d → fmtName ctx acc d = none := by
  intro d
  induction d with
  | nil => intro _ _; rw [fmtName.eq_def]
  | cons c cs ih =>
    intro acc h
    have hc : c ≠ '}' := fun hcc => h (by simp [hcc])
    by_cases hsp : c = '{' || c = ':' || c = '!'
    · rw [fmtName.eq_def]
      simp [hc, hsp]
    · have := ih (acc ++ [c]) (fun hm => h (List.mem_cons_of_mem _ hm))
      rw [fmtName.eq_def]
      simp [hc, hsp, this]

theorem fmtSubst_nil (ctx : List (List Char × List Char)) :
    fmtSubst ctx [] = some [] := by
  rw [fmtSubst.eq_def]

theorem fmtName_nil (ctx : List (List Char × List Char)) (acc : List Char) :
    fmtName ctx acc [] = none := by
  rw [fmtName.eq_def]

theorem fmtSubst_open_nil (ctx : List (List Char × List Char)) :
    fmtSubst ctx ['{'] = none := by
  rw [fmtSubst.eq_def]
  simp

theorem fmtSubst_close_nil (ctx : List (List Char × List Char)) :
    fmtSubst ctx ['}'] = none := by
  rw [fmtSubst.eq_def]
  simp

theorem fmtSubst_open_open (ctx : List (List Char × List Char)) (rest : List Char) :
    fmtSubst ctx ('{' :: '{' :: rest) = (fmtSubst ctx rest).map ('{' :: ·) := by
  rw [fmtSubst.eq_def]
  simp

theorem fmtSubst_close_close (ctx : List (List Char × List Char)) (rest : List Char) :
    fmtSubst ctx ('}' :: '}' :: rest) = (fmtSubst ctx rest).map ('}' :: ·) := by
  rw [fmtSubst.eq_def]
  simp

theorem fmtSubst_open_other (ctx : List (List Char × List Char)) (c2 : Char)
    (rest : List Char) (h : c2 ≠ '{') :
    fmtSubst ctx ('{' :: c2 :: rest) = fmtName ctx [] (c2 :: rest) := by
  rw [fmtSubst.eq_def]
  simp [h]

theorem fmtSubst_close_other (ctx : List (List Char × List Char)) (c2 : Char)
    (rest : List Char) (h : c2 ≠ '}') :
    fmtSubst ctx ('}' :: c2 :: rest) = none := by
  rw [fmtSubst.eq_def]
  simp [h]

theorem fmtSubst_other (ctx : List (List Char × List Char)) (c : Char)
    (rest : List Char) (h1 : c ≠ '{') (h2 : c ≠ '}') :
    fmtSubst ctx (c :: rest) = (fmtSubst ctx rest).map (c :: ·) := by
  rw [fmtSubst.eq_def]
  simp [h1, h2]

theorem fmtName_close (ctx : List (List Char × List Char)) (acc rest : List Char) :
    fmtName ctx acc ('}' :: rest)
      = match lookupCtx ctx acc with
        | some v => (fmtSubst ctx rest).map (v ++ ·)
        | none => none := by
  rw [fmtName.eq_def]
  simp

theorem fmtName_special (ctx : List (List Char × List Char)) (c : Char)
    (acc rest : List Char) (h : c = '{' || c = ':' || c = '!') :
    fmtName ctx acc (c :: rest) = none := by
  have hc : c ≠ '}' := by
    rcases Bool.or_eq_true_iff.mp h with h' | h'
    · rcases Bool.or_eq_true_iff.mp h' with h'' | h'' <;>
        simp only [decide_eq_true_eq] at h'' <;> simp [h'']
    · simp only [decide_eq_true_eq] at h'; simp [h']
  rw [fmtName.eq_def]
  simp [hc, h]

theorem fmtName_other (ctx : List (List Char × List Char)) (c : Char)
    (acc rest : List Char) (hc : c ≠ '}')
    (hsp : ¬(c = '{' || c = ':' || c = '!')) :
    fmtName ctx acc (c :: rest) = fmtName ctx (acc ++ [c]) rest := by
  rw [fmtName.eq_def]
  simp only [Bool.or_eq_true, decide_eq_true_eq] at hsp
  push_neg at hsp
  obtain ⟨⟨h1, h2⟩, h3⟩ := hsp
  simp [hc, h1, h2, h3]

/-- Joint append lemma: substituting `t ++ d` for a brace-free `d` first
substitutes `t`, then appends `d` literally; the companion statement covers
a scan that is inside a placeholder name at the junction. -/
theorem fmt_append_aux (ctx : List (List Char × List Char)) (d : List Char)
    (hd1 : '{' ∉ d) (hd2 : '}' ∉ d) :
    ∀ n t, List.length t ≤ n →
      (fmtSubst ctx (t ++ d) = (fmtSubst ctx t).map (· ++ d)) ∧
      (∀ acc, fmtName ctx acc (t ++ d) = (fmtName ctx acc t).map (· ++ d)) := by
  intro n
  induction n with
  | zero =>
    intro t ht
    have ht0 : t = [] := List.eq_nil_of_length_eq_zero (Nat.le_zero.mp ht)
    subst ht0
    refine ⟨?_, fun acc => ?_⟩
    · rw [List.nil_append, fmtSubst_brace_free ctx d hd1 hd2, fmtSubst_nil]
      rfl
    · rw [List.nil_append, fmtName_no_close ctx d acc hd2, fmtName_nil]
      rfl
  | succ n ih =>
    intro t ht
    cases t with
    | nil =>
      refine ⟨?_, fun acc => ?_⟩
      · rw [List.nil_append, fmtSubst_brace_free ctx d hd1 hd2, fmtSubst_nil]
        rfl
      · rw [List.nil_append, fmtName_no_close ctx d acc hd2, fmtName_nil]
        rfl
    | cons c rest =>
      have hrest : rest.length ≤ n := by
        simp only [List.length_cons] at ht; omega
      have ihS := (ih rest hrest).1
      have ihN := (ih rest hrest).2
      refine ⟨?_, fun acc => ?_⟩
      · -- the fmtSubst component
        by_cases hc1 : c = '{'
        · subst hc1
          cases rest with
          | nil =>
            cases d with
            | nil => simp [fmtSubst_open_nil]
            | cons e es =>
              have he : e ≠ '{' := fun h => hd1 (by simp [h])
              have hname : fmtName ctx [] (e :: es) = none :=
                fmtName_no_close ctx (e :: es) [] hd2
              simp [fmtSubst_open_other ctx e es he, fmtSubst_open_nil, hname]
          | cons c2 rest2 =>
            by_cases hc2 : c2 = '{'
            · subst hc2
              have hr2 : rest2.length ≤ n := by
                simp only [List.length_cons] at hrest; omega
              have ihS2 := (ih rest2 hr2).1
              show fmtSubst ctx ('{' :: '{' :: (rest2 ++ d)) = _
              rw [fmtSubst_open_open, ihS2, fmtSubst_open_open]
              rcases fmtSubst ctx rest2 with _ | r <;> simp
            · show fmtSubst ctx ('{' :: c2 :: (rest2 ++ d)) = _
              rw [fmtSubst_open_other ctx c2 (rest2 ++ d) hc2,
                fmtSubst_open_other ctx c2 rest2 hc2]
              exact ihN []
        · by_cases hc2 : c = '}'
          · subst hc2
            cases rest with
            | nil =>
              cases d with
              | nil => simp [fmtSubst_close_nil]
              | cons e es =>
                have he : e ≠ '}' := fun h => hd2 (by simp [h])
                simp [fmtSubst_close_other ctx e es he, fmtSubst_close_nil]
            | cons c2 rest2 =>
              by_cases hc2' : c2 = '}'
              · subst hc2'
                have hr2 : rest2.length ≤ n := by
                  simp only [List.length_cons] at hrest; omega
                have ihS2 := (ih rest2 hr2).1
                show fmtSubst ctx ('}' :: '}' :: (rest2 ++ d)) = _
                rw [fmtSubst_close_close, ihS2, fmtSubst_close_close]
                rcases fmtSubst ctx rest2 with _ | r <;> simp
              · show fmtSubst ctx ('}' :: c2 :: (rest2 ++ d)) = _
                rw [fmtSubst_close_other ctx c2 (rest2 ++ d) hc2',
                  fmtSubst_close_other ctx c2 rest2 hc2']
                rfl
          · rw [List.cons_append, fmtSubst_other ctx c (rest ++ d) hc1 hc2,
              fmtSubst_other ctx c rest hc1 hc2, ihS]
            rcases fmtSubst ctx rest with _ | r <;> simp
      · -- the fmtName component
        by_cases hc : c = '}'
        · subst hc
          rw [List.cons_append, fmtName_close, fmtName_close]
          rcases hl : lookupCtx ctx acc with _ | v
          · rfl
          · rw [ihS]
            rcases fmtSubst ctx rest with _ | r <;> simp
        · by_cases hsp : c = '{' || c = ':' || c = '!'
          · rw [List.cons_append, fmtName_special ctx c acc (rest ++ d) hsp,
              fmtName_special ctx c acc rest hsp]
            rfl
          · rw [List.cons_append, fmtName_other ctx c acc (rest ++ d) hc hsp,
              fmtName_other ctx c acc rest hc hsp]
            exact ihN (acc ++ [c])

/-- Append lemma in its usable form: for a brace-free suffix `d`,
substitution of `t ++ d` substitutes `t` and appends `d` unchanged. -/
theorem fmtSubst_append (ctx : List (List Char × List Char)) (t d : List Char)
    (hd1 : '{' ∉ d) (hd2 : '}' ∉ d) :
    fmtSubst ctx (t ++ d) = (fmtSubst ctx t).map (· ++ d) :=
  (fmt_append_aux ctx d hd1 hd2 t.length t (Nat.le_refl _)).1

/-- The five supported languages (`app.py` line 32). -/
def LANGUAGES : List (List Char) :=
  [("English").data, ("Spanish").data, ("French").data,
   ("German").data, ("Chinese").data]

/-- The language directive appended by the f-string in
`generate_localized_content` (`app.py` line 102): a space, a newline,
`Respond in `, the language name, and ` language`. -/
def languageDirective (language : List Char) : List Char :=
  (" \nRespond in ").data ++ language ++ (" language").data

/-- Model of `generate_localized_content` (`app.py` lines 98-104): merge the
language into the context, append the language directive to the template,
substitute the placeholders, and send the result to the generation endpoint,
returning its text response as-is.  `none` models the exception raised on a
malformed template or missing context key. -/
def generate_localized_content (endpoint : List Char → List Char)
    (prompt_template language : List Char)
    (context : List (List Char × List Char)) : Option (List Char) :=
  let full_context := (("language").data, language) :: context
  (fmtSubst full_context (prompt_template ++ languageDirective language)).map endpoint

/-- C5: for each of the five supported languages, every template and every
context, the prompt sent to the endpoint is the substituted template with
the language directive for that language appended, and the endpoint's text
response is returned unmodified. -/
theorem generate_localized_appends_directive (endpoint : List Char → List Char)
    (prompt_template language : List Char)
    (context : List (List Char × List Char))
    (h : language ∈ LANGUAGES) :
    generate_localized_content endpoint prompt_template language context
      = (fmtSubst ((("language").data, language) :: context) prompt_template).map
          (fun p => endpoint (p ++ languageDirective language)) := by
  have hdir : '{' ∉ languageDirective language ∧ '}' ∉ languageDirective language := by
    simp only [LANGUAGES, List.mem_cons, List.not_mem_nil, or_false] at h
    rcases h with h | h | h | h | h <;> subst h <;> exact ⟨by decide, by decide⟩
  unfold generate_localized_content
  simp only []
  rw [fmtSubst_append _ _ _ hdir.1 hdir.2]
  rcases fmtSubst ((("language").data, language) :: context) prompt_template with _ | p <;>
    simp

/-- Witness for C5: with the identity endpoint, a concrete template and
context, and English selected, the directive is appended after
substitution. -/
theorem generate_localized_appends_directive_witness :
    generate_localized_content (fun s => s) ("Hello \x7bname\x7d").data
        ("English").data [(("name").data, ("World").data)]
      = (fmtSubst [(("language").data, ("English").data),
            (("name").data, ("World").data)] ("Hello \x7bname\x7d").data).map
          (fun p => (fun s : List Char => s) (p ++ languageDirective ("English").data)) :=
  generate_localized_appends_directive (fun s => s) ("Hello \x7bname\x7d").data
    ("English").data [(("name").data, ("World").data)] (by decide)

/-- UTF-8 encoding of one character, as used when the export writer opens
the temporary file with `encoding="utf-8"`. -/
def utf8EncodeChar (c : Char) : List Nat :=
  let n := c.toNat
  if n < 128 then [n]
  else if n < 2048 then [192 + n / 64, 128 + n % 64]
  else if n < 65536 then [224 + n / 4096, 128 + n / 64 % 64, 128 + n % 64]
  else [240 + n / 262144, 128 + n / 4096 % 64, 128 + n / 64 % 64, 128 + n % 64]

/-- UTF-8 encoding of a string as a byte list. -/
def utf8Encode (l : List Char) : List Nat := (l.map utf8EncodeChar).flatten

theorem char_toNat_lt (c : Char) : c.toNat < 1114112 := by
  rcases c.valid with h | ⟨h1, h2⟩
  · exact Nat.lt_trans h (by norm_num)
  · exact h2

theorem utf8EncodeChar_lt (c : Char) : ∀ b ∈ utf8EncodeChar c, b < 256 := by
  intro b hb
  have hc := char_toNat_lt c
  by_cases h1 : c.toNat < 128
  · simp [utf8EncodeChar, h1] at hb
    omega
  · by_cases h2 : c.toNat < 2048
    · simp [utf8EncodeChar, h1, h2] at hb
      rcases hb with rfl | rfl <;> omega
    · by_cases h3 : c.toNat < 65536
      · simp [utf8EncodeChar, h1, h2, h3] at hb
        rcases hb with rfl | rfl | rfl <;> omega
      · simp [utf8EncodeChar, h1, h2, h3] at hb
        rcases hb with rfl | rfl | rfl | rfl <;> omega

theorem utf8Encode_lt (l : List Char) : ∀ b ∈ utf8Encode l, b < 256 := by
  intro b hb
  simp only [utf8Encode, List.mem_flatten, List.mem_map] at hb
  obtain ⟨bs, ⟨c, _, rfl⟩, hbbs⟩ := hb
  exact utf8EncodeChar_lt c b hbbs

/-- The standard base64 alphabet used by `base64.b64encode`. -/
def b64Chars : List Char :=
  ("ABCDEFGHIJKLMNOPQRSTUVWXYZabcdefghijklmnopqrstuvwxyz0123456789+/").data

def b64Char (n : Nat) : Char := b64Chars.getD n 'A'

def b64Val (c : Char) : Option Nat := b64Chars.findIdx? (· = c)

/-- Model of `base64.b64encode`: encode three bytes into four alphabet
characters, padding a final group of one or two bytes with `=`. -/
def base64Encode : List Nat → List Char
  | [] => []
  | [a] => [b64Char (a / 4), b64Char (a % 4 * 16), '=', '=']
  | [a, b] => [b64Char (a / 4), b64Char (a % 4 * 16 + b / 16), b64Char (b % 16 * 4), '=']
  | a :: b :: e :: rest =>
    b64Char (a / 4) :: b64Char (a % 4 * 16 + b / 16) ::
      b64Char (b % 16 * 4 + e / 64) :: b64Char (e % 64) :: base64Encode rest

/-- Base64 decoding — the reading-back of the link payload. -/
def base64Decode : List Char → Option (List Nat)
  | [] => some []
  | w :: x :: y :: z :: rest =>
    (match b64Val w, b64Val x with
    | some a, some b =>
      if y = '=' then
        if z = '=' then (if rest = [] then some [a * 4 + b / 16] else none) else none
      else
        match b64Val y with
        | some e =>
          if z = '=' then
            (if rest = [] then some [a * 4 + b / 16, b % 16 * 16 + e / 4] else none)
          else
            match b64Val z with
            | some f =>
              (base64Decode rest).map
                (fun t => (a * 4 + b / 16) :: (b % 16 * 16 + e / 4) :: (e % 4 * 64 + f) :: t)
            | none => none
        | none => none
    | _, _ => none)
  | _ => none

theorem b64Val_b64Char : ∀ n, n < 64 → b64Val (b64Char n) = some n := by decide

theorem b64Char_ne_pad : ∀ n, n < 64 → b64Char n ≠ '=' := by decide

/-- Decoding the base64 payload of the download link recovers the encoded
bytes exactly. -/
theorem base64_roundtrip : ∀ l : List Nat, (∀ b ∈ l, b < 256) →
    base64Decode (base64Encode l) = some l
  | [], _ => by simp [base64Encode, base64Decode]
  | [a], h => by
    have ha : a < 256 := h a (by simp)
    have h1 : b64Val (b64Char (a / 4)) = some (a / 4) := b64Val_b64Char _ (by omega)
    have h2 : b64Val (b64Char (a % 4 * 16)) = some (a % 4 * 16) :=
      b64Val_b64Char _ (by omega)
    simp [base64Encode, base64Decode, h1, h2]
    omega
  | [a, b], h => by
    have ha : a < 256 := h a (by simp)
    have hb : b < 256 := h b (by simp)
    have h1 : b64Val (b64Char (a / 4)) = some (a / 4) := b64Val_b64Char _ (by omega)
    have h2 : b64Val (b64Char (a % 4 * 16 + b / 16)) = some (a % 4 * 16 + b / 16) :=
      b64Val_b64Char _ (by omega)
    have h3 : b64Val (b64Char (b % 16 * 4)) = some (b % 16 * 4) :=
      b64Val_b64Char _ (by omega)
    have h4 : b64Char (b % 16 * 4) ≠ '=' := b64Char_ne_pad _ (by omega)
    simp [base64Encode, base64Decode, h1, h2, h3, h4]
    omega
  | a :: b :: e :: rest, h => by
    have ha : a < 256 := h a (by simp)
    have hb : b < 256 := h b (by simp)
    have he : e < 256 := h e (by simp)
    have ih := base64_roundtrip rest
      (fun x hx => h x (by simp at hx ⊢; tauto))
    have h1 : b64Val (b64Char (a / 4)) = some (a / 4) := b64Val_b64Char _ (by omega)
    have h2 : b64Val (b64Char (a % 4 * 16 + b / 16)) = some (a % 4 * 16 + b / 16) :=
      b64Val_b64Char _ (by omega)
    have h3 : b64Val (b64Char (b % 16 * 4 + e / 64)) = some (b % 16 * 4 + e / 64) :=
      b64Val_b64Char _ (by omega)
    have h4 : b64Val (b64Char (e % 64)) = some (e % 64) := b64Val_b64Char _ (by omega)
    have h5 : b64Char (b % 16 * 4 + e / 64) ≠ '=' := b64Char_ne_pad _ (by omega)
    have h6 : b64Char (e % 64) ≠ '=' := b64Char_ne_pad _ (by omega)
    simp [base64Encode, base64Decode, h1, h2, h3, h4, h5, h6, ih]
    omega

/-- Result of an export call: the returned link markup (empty on failure)
and the state of the temporary file path after the call (`none` when no
file exists there). -/
structure ExportOutcome where
  link : List Char
  file : Option (List Nat)

/-- Python `str.upper`, restricted to the character-wise mapping. -/
def pyUpper (s : List Char) : List Char := s.map Char.toUpper

/-- The anchor markup built by `create_download_link` (`app.py` line 160). -/
def mkDownloadLink (b64 : List Char) (filename fmt : List Char) : List Char :=
  ("<a href=\"data:application/octet-stream;base64,").data ++ b64 ++
    ("\" download=\"").data ++ filename ++ ['.'] ++ fmt ++
    ("\">Download ").data ++ pyUpper fmt ++ ("</a>").data

/-- The `finally` clause of `create_download_link` (`app.py` lines 166-172):
remove the temporary file when it exists. -/
def removeIfExists (f : Option (List Nat)) : Option (List Nat) :=
  match f with
  | some _ => none
  | none => none

/-- Model of `create_download_link` (`app.py` lines 135-172).
`pdfConfigured` is whether the `wkhtmltopdf` binary was found at start-up;
`pdfRender` is the byte output of `pdfkit.from_string` (`none` when the
renderer raises); `docxRender` is the byte serialisation of the
one-paragraph document written by `python-docx`; `init` is whatever the
temporary path holds before the call.  The `pdf` branch raises when the
renderer is unconfigured or fails; the `docx` branch writes the rendered
bytes; every other format tag falls to the `else` branch, which writes the
content UTF-8-encoded.  The file is then read back, base64-encoded into the
anchor markup, and the `finally` clause removes the temporary file on every
path; the exception handler returns the empty string. -/
def create_download_link (pdfConfigured : Bool) (pdfRender : Option (List Nat))
    (docxRender : List Char → List Nat) (content filename fmt : List Char)
    (init : Option (List Nat)) : ExportOutcome :=
  let gen : Option (Option (List Nat)) :=
    if fmt = ("pdf").data then
      if pdfConfigured then
        match pdfRender with
        | some bs => some (some bs)
        | none => none
      else none
    else if fmt = ("docx").data then some (some (docxRender content))
    else some (some (utf8Encode content))
  match gen with
  | none => { link := [], file := removeIfExists init }
  | some f =>
    match f with
    | some data => { link := mkDownloadLink (base64Encode data) filename fmt,
                     file := removeIfExists (some data) }
    | none => { link := [], file := removeIfExists f }

/-- C7: after every export call — any format, any renderer outcome, any
prior state of the temporary path — the temporary file no longer exists. -/
theorem create_download_link_cleanup (pdfConfigured : Bool)
    (pdfRender : Option (List Nat)) (docxRender : List Char → List Nat)
    (content filename fmt : List Char) (init : Option (List Nat)) :
    (create_download_link pdfConfigured pdfRender docxRender
        content filename fmt init).file = none := by
  unfold create_download_link
  rcases pdfRender with _ | bs <;> rcases init with _ | b0 <;>
    by_cases h1 : fmt = ("pdf").data <;> by_cases h2 : fmt = ("docx").data <;>
    rcases pdfConfigured <;> simp [h1, h2, removeIfExists]

/-- C6: exporting a content string in TXT format produces the download link
whose payload is the base64 encoding of the UTF-8 bytes of the content, and
reading that payload back (base64-decoding it) yields exactly the UTF-8
encoding of the content — the byte-identical round-trip. -/
theorem txt_export_roundtrip (pdfConfigured : Bool)
    (pdfRender : Option (List Nat)) (docxRender : List Char → List Nat)
    (content filename : List Char) (init : Option (List Nat)) :
    (create_download_link pdfConfigured pdfRender docxRender
          content filename ("txt").data init).link
        = mkDownloadLink (base64Encode (utf8Encode content)) filename ("txt").data ∧
      base64Decode (base64Encode (utf8Encode content)) = some (utf8Encode content) := by
  constructor
  · unfold create_download_link
    simp
  · exact base64_roundtrip (utf8Encode content) (utf8Encode_lt content)

/-- C9: every format tag other than `pdf` and `docx` — not only `txt` —
takes the plain-text branch: the content is written UTF-8-encoded to the
temporary file named with that tag as its extension, and a download link
for it is produced rather than the format being rejected. -/
theorem other_format_is_text (pdfConfigured : Bool)
    (pdfRender : Option (List Nat)) (docxRender : List Char → List Nat)
    (content filename fmt : List Char) (init : Option (List Nat))
    (h1 : fmt ≠ ("pdf").data) (h2 : fmt ≠ ("docx").data) :
    create_download_link pdfConfigured pdfRender docxRender
        content filename fmt init
      = { link := mkDownloadLink (base64Encode (utf8Encode content)) filename fmt,
          file := none } := by
  unfold create_download_link
  simp [h1, h2, removeIfExists]

/-- Witness for C9 at the format tag `md`. -/
theorem other_format_is_text_witness :
    create_download_link true none (fun _ => []) ("hi").data ("resume").data
        ("md").data none
      = { link := mkDownloadLink (base64Encode (utf8Encode ("hi").data))
            ("resume").data ("md").data,
          file := none } :=
  other_format_is_text true none (fun _ => []) ("hi").data ("resume").data
    ("md").data none (by decide) (by decide)
end CareerApp
